import Mathlib

/-!
Verification of the news pipeline (`news_pipeline` repository).

Shallow embedding of the pipeline's pure core:
  * `utils.py` : `deduplicate_markets`, `limit_markets_per_category`,
    `load_checkpoint` (the filesystem and JSON parser are modelled as
    abstract collaborator functions);
  * `llm_service.py` : `validate_prediction_data` and the retry loop of
    `generate_prediction_content` (the model call is an abstract oracle of
    per-attempt outcomes);
  * `article_processor.py` : `clean_article_text`, `enrich_article_data`
    (HTTP fetch and HTML text extraction are abstract collaborators);
  * `output_formatter.py` : `create_market_object`;
  * `pipeline.py` : the per-category checkpoint branch of `run_pipeline`.

Python string primitives used by the code (`str.lower`, `str.strip`,
`str.split`, `in`, `endswith`) are modelled character-wise over `s.data`.
`hashlib.md5(...).hexdigest()` is an external library primitive and is
modelled as an abstract digest function `md5hex : String → String`; all
deduplication theorems hold for every digest function, hence for MD5.
-/

namespace NewsPipeline

/-- Python `str.lower()` (character-wise, as used here on ASCII titles). -/
def pyLower (s : String) : String :=
  String.mk (s.data.map Char.toLower)

/-- Python `str.strip()`: drop leading and trailing whitespace. -/
def pyStrip (s : String) : String :=
  String.mk (((s.data.dropWhile Char.isWhitespace).reverse.dropWhile Char.isWhitespace).reverse)

/-- Python `suffix in s` for the membership test `"T" in endTime`
(substring containment, character-wise). -/
def pyContains (s sub : String) : Bool :=
  s.data.tails.any (fun t => sub.data.isPrefixOf t)

/-- Python `s.endswith(suffix)`. -/
def pyEndsWith (s suffix : String) : Bool :=
  suffix.data.isSuffixOf s.data

/-- A market record, restricted to the fields the deduplicator, the quota
enforcer and the checkpoint branch read (`market["title"]`,
`market["description"]`, `market["category"]`). -/
structure Market where
  title : String
  description : String
  category : String
deriving DecidableEq, Repr

/-- The normalized title used by `deduplicate_markets`
(`market["title"].lower().strip()`, utils.py line 77). -/
def normalizedTitle (m : Market) : String :=
  pyStrip (pyLower m.title)

/-- Title fingerprint of a market: `generate_content_hash(normalized_title)`
(utils.py line 78), with the MD5 digest abstracted as `md5hex`. -/
def titleHash (md5hex : String → String) (m : Market) : String :=
  md5hex (normalizedTitle m)

/-- Description fingerprint of a market:
`generate_content_hash(market["description"])` (utils.py line 81). -/
def descriptionHash (md5hex : String → String) (m : Market) : String :=
  md5hex m.description

/-- The loop of `deduplicate_markets` (utils.py lines 71–89).  State:
`seenTitles` models the `seen_titles` set (written but never read by the
code) and `seenHashes` models the single shared `seen_hashes` set holding
both title and description fingerprints.  Sets are modelled as lists
queried only through membership. -/
def dedupeGo (md5hex : String → String) :
    List Market → List String → List String → List Market
  | [], _, _ => []
  | m :: rest, seenTitles, seenHashes =>
    let th := titleHash md5hex m
    let dh := descriptionHash md5hex m
    if th ∉ seenHashes ∧ dh ∉ seenHashes then
      m :: dedupeGo md5hex rest (normalizedTitle m :: seenTitles) (th :: dh :: seenHashes)
    else
      dedupeGo md5hex rest seenTitles seenHashes

/-- `deduplicate_markets(markets)` (utils.py lines 61–91): both seen-sets
start empty. -/
def deduplicate_markets (md5hex : String → String) (markets : List Market) : List Market :=
  dedupeGo md5hex markets [] []

/-- `dedupeGo` never reads the `seen_titles` set. -/
theorem dedupeGo_seenTitles_irrelevant (md5hex : String → String) :
    ∀ (l : List Market) (ts ts' hs : List String),
      dedupeGo md5hex l ts hs = dedupeGo md5hex l ts' hs := by
  intro l
  induction l with
  | nil => intro ts ts' hs; rfl
  | cons m rest ih =>
    intro ts ts' hs
    simp only [dedupeGo]
    split
    · exact congrArg _ (ih _ _ _)
    · exact ih _ _ _

/-- Re-running the dedup loop on its own output, starting from the same
hash set, changes nothing. -/
theorem dedupeGo_self (md5hex : String → String) :
    ∀ (l : List Market) (ts ts' hs : List String),
      dedupeGo md5hex (dedupeGo md5hex l ts hs) ts' hs = dedupeGo md5hex l ts hs := by
  intro l
  induction l with
  | nil => intro ts ts' hs; rfl
  | cons m rest ih =>
    intro ts ts' hs
    simp only [dedupeGo]
    split
    · simp only [dedupeGo]
      split
      · exact congrArg _ (ih _ _ _)
      · rename_i hkeep hskip
        exact absurd hkeep hskip
    · exact ih _ _ _

/-- Every market in the output of the dedup loop had both of its
fingerprints outside the seen-hash set the loop started from. -/
theorem dedupeGo_mem_not_seen (md5hex : String → String) :
    ∀ (l : List Market) (ts hs : List String) (m : Market),
      m ∈ dedupeGo md5hex l ts hs →
      titleHash md5hex m ∉ hs ∧ descriptionHash md5hex m ∉ hs := by
  intro l
  induction l with
  | nil => intro ts hs m hm; simp [dedupeGo] at hm
  | cons m0 rest ih =>
    intro ts hs m hm
    simp only [dedupeGo] at hm
    split at hm
    · rename_i hkeep
      rcases List.mem_cons.mp hm with hEq | hTail
      · subst hEq; exact hkeep
      · have h2 := ih _ _ m hTail
        constructor
        · intro hc
          exact h2.1 (List.mem_cons_of_mem _ (List.mem_cons_of_mem _ hc))
        · intro hc
          exact h2.2 (List.mem_cons_of_mem _ (List.mem_cons_of_mem _ hc))
    · exact ih _ _ m hm

/-- The output of the dedup loop is pairwise fingerprint-fresh: a later
kept market's two fingerprints differ from both fingerprints of every
earlier kept market. -/
theorem dedupeGo_pairwise (md5hex : String → String) :
    ∀ (l : List Market) (ts hs : List String),
      (dedupeGo md5hex l ts hs).Pairwise (fun a b =>
        titleHash md5hex b ≠ titleHash md5hex a ∧
        descriptionHash md5hex b ≠ descriptionHash md5hex a ∧
        titleHash md5hex b ≠ descriptionHash md5hex a ∧
        descriptionHash md5hex b ≠ titleHash md5hex a) := by
  intro l
  induction l with
  | nil => intro ts hs; simp [dedupeGo]
  | cons m0 rest ih =>
    intro ts hs
    simp only [dedupeGo]
    split
    · refine List.Pairwise.cons ?_ (ih _ _)
      intro b hb
      have h := dedupeGo_mem_not_seen md5hex rest _ _ b hb
      refine ⟨?_, ?_, ?_, ?_⟩
      · intro hc; exact h.1 (by simp [hc])
      · intro hc; exact h.2 (by simp [hc])
      · intro hc; exact h.1 (by simp [hc])
      · intro hc; exact h.2 (by simp [hc])
    · exact ih _ _

/-- C4: For every sequence of markets, applying `deduplicate_markets` twice
yields the same result as applying it once:
`dedupe(dedupe(markets)) == dedupe(markets)`. -/
theorem deduplicate_markets_idempotent (md5hex : String → String) (markets : List Market) :
    deduplicate_markets md5hex (deduplicate_markets md5hex markets) =
      deduplicate_markets md5hex markets :=
  dedupeGo_self md5hex markets [] [] []

/-- C5: The output of `deduplicate_markets` contains no two markets with
equal title fingerprint and no two markets with equal description
fingerprint; indeed a market is retained only if both of its fingerprints
(title hash of the case-folded, trimmed title; hash of the raw description)
are unseen among both kinds of fingerprints of the markets kept before it
in the same call. -/
theorem deduplicate_markets_sound (md5hex : String → String) (markets : List Market) :
    (deduplicate_markets md5hex markets).Pairwise (fun a b =>
      titleHash md5hex b ≠ titleHash md5hex a ∧
      descriptionHash md5hex b ≠ descriptionHash md5hex a ∧
      titleHash md5hex b ≠ descriptionHash md5hex a ∧
      descriptionHash md5hex b ≠ titleHash md5hex a) :=
  dedupeGo_pairwise md5hex markets [] []

/-- C9: `deduplicate_markets` keeps one shared seen-set for title and
description fingerprints: a market whose title fingerprint equals only an
earlier kept market's description fingerprint (all same-kind fingerprints
being distinct) is still discarded. -/
theorem deduplicate_markets_shared_seen_set (md5hex : String → String) (m1 m2 : Market)
    (hmatch : titleHash md5hex m2 = descriptionHash md5hex m1)
    (ht : titleHash md5hex m2 ≠ titleHash md5hex m1)
    (hd : descriptionHash md5hex m2 ≠ descriptionHash md5hex m1) :
    deduplicate_markets md5hex [m1, m2] = [m1] := by
  have h2 : ¬(titleHash md5hex m2 ∉
        [titleHash md5hex m1, descriptionHash md5hex m1] ∧
      descriptionHash md5hex m2 ∉
        [titleHash md5hex m1, descriptionHash md5hex m1]) := by
    intro hc
    exact hc.1 (by simp [hmatch])
  simp [deduplicate_markets, dedupeGo, h2]
  intro _ hb _
  exact absurd hmatch hb

/-- Witness for C9 at a concrete input: with the identity digest, market
⟨"b", "c"⟩ is discarded because its title fingerprint "b" collides with the
description fingerprint of the earlier market ⟨"a", "b"⟩, although all
same-kind fingerprints are distinct. -/
theorem deduplicate_markets_shared_seen_set_witness :
    titleHash id ⟨"b", "c", "Crypto"⟩ = descriptionHash id ⟨"a", "b", "Crypto"⟩ ∧
    titleHash id ⟨"b", "c", "Crypto"⟩ ≠ titleHash id ⟨"a", "b", "Crypto"⟩ ∧
    descriptionHash id ⟨"b", "c", "Crypto"⟩ ≠ descriptionHash id ⟨"a", "b", "Crypto"⟩ ∧
    deduplicate_markets id [⟨"a", "b", "Crypto"⟩, ⟨"b", "c", "Crypto"⟩] =
      [⟨"a", "b", "Crypto"⟩] :=
  ⟨by decide, by decide, by decide,
    deduplicate_markets_shared_seen_set id _ _ (by decide) (by decide) (by decide)⟩

/-! ### `limit_markets_per_category` (utils.py lines 93–122) -/

/-- One step of the grouping loop of `limit_markets_per_category`
(utils.py lines 108–113): Python's insertion-ordered `dict` is modelled as
an association list; a new category is appended at the end, an existing
category's list is extended at the end. -/
def addToGroups : List (String × List Market) → Market → List (String × List Market)
  | [], m => [(m.category, [m])]
  | (c, ms) :: rest, m =>
    if c = m.category then (c, ms ++ [m]) :: rest
    else (c, ms) :: addToGroups rest m

/-- The grouping loop of `limit_markets_per_category`. -/
def groupByCategory (markets : List Market) : List (String × List Market) :=
  markets.foldl addToGroups []

/-- Python's `l[:limit]` for an arbitrary integer `limit`: the first
`limit` elements when `limit ≥ 0`, all but the last `-limit` elements when
`limit < 0`. -/
def pythonSliceUpTo (limit : Int) (l : List Market) : List Market :=
  if 0 ≤ limit then l.take limit.toNat
  else l.take (l.length - (-limit).toNat)

/-- `limit_markets_per_category(markets, limit)` (utils.py lines 93–122):
group by category in first-seen order, truncate each group with `[:limit]`,
concatenate in group order. -/
def limit_markets_per_category (markets : List Market) (limit : Int) : List Market :=
  ((groupByCategory markets).map (fun g => pythonSliceUpTo limit g.2)).flatten

theorem pythonSliceUpTo_sublist (limit : Int) (l : List Market) :
    (pythonSliceUpTo limit l).Sublist l := by
  unfold pythonSliceUpTo
  split <;> exact List.take_sublist _ _

theorem pythonSliceUpTo_length_le (limit : Int) (h : 0 ≤ limit) (l : List Market) :
    (pythonSliceUpTo limit l).length ≤ limit.toNat := by
  simp only [pythonSliceUpTo, if_pos h, List.length_take]
  exact min_le_left _ _

theorem pythonSliceUpTo_ne_nil (limit : Int) (h : 1 ≤ limit) (l : List Market)
    (hl : l ≠ []) : pythonSliceUpTo limit l ≠ [] := by
  have h0 : 0 ≤ limit := le_trans (by norm_num) h
  have h1 : 1 ≤ limit.toNat := by omega
  simp only [pythonSliceUpTo, if_pos h0]
  cases l with
  | nil => exact absurd rfl hl
  | cons a l =>
    cases hn : limit.toNat with
    | zero => omega
    | succ k => simp [List.take]

/-- Every market stored in a group carries that group's category key. -/
def GroupsCatOk (gs : List (String × List Market)) : Prop :=
  ∀ g ∈ gs, ∀ m ∈ g.2, m.category = g.1

/-- A category has a nonempty group. -/
def HasCat (gs : List (String × List Market)) (c : String) : Prop :=
  ∃ g ∈ gs, g.1 = c ∧ g.2 ≠ []

theorem addToGroups_catOk {gs : List (String × List Market)} (m : Market)
    (h : GroupsCatOk gs) : GroupsCatOk (addToGroups gs m) := by
  induction gs with
  | nil =>
    intro g hg m' hm'
    simp only [addToGroups, List.mem_singleton] at hg
    subst hg
    simp only [List.mem_singleton] at hm'
    subst hm'
    rfl
  | cons p rest ih =>
    obtain ⟨c, ms⟩ := p
    intro g hg m' hm'
    simp only [addToGroups] at hg
    split at hg
    · rename_i hc
      rcases List.mem_cons.mp hg with hEq | hTail
      · subst hEq
        simp only at hm'
        rcases List.mem_append.mp hm' with hin | hin
        · exact h (c, ms) (List.mem_cons_self _ _) m' hin
        · simp only [List.mem_singleton] at hin
          subst hin
          exact hc.symm
      · exact h g (List.mem_cons_of_mem _ hTail) m' hm'
    · rcases List.mem_cons.mp hg with hEq | hTail
      · subst hEq
        exact h (c, ms) (List.mem_cons_self _ _) m' hm'
      · exact ih (fun g' hg' => h g' (List.mem_cons_of_mem _ hg')) g hTail m' hm'

theorem addToGroups_keys (gs : List (String × List Market)) (m : Market) :
    (addToGroups gs m).map Prod.fst =
      if m.category ∈ gs.map Prod.fst then gs.map Prod.fst
      else gs.map Prod.fst ++ [m.category] := by
  induction gs with
  | nil => simp [addToGroups]
  | cons p rest ih =>
    obtain ⟨c, ms⟩ := p
    simp only [addToGroups, List.map_cons]
    by_cases hc : c = m.category
    · rw [if_pos hc]
      have hmem : m.category ∈ (c, ms).1 :: rest.map Prod.fst := by
        rw [← hc]
        exact List.mem_cons_self _ _
      rw [if_pos hmem, List.map_cons]
    · rw [if_neg hc, List.map_cons, ih]
      by_cases hmem : m.category ∈ rest.map Prod.fst
      · rw [if_pos hmem,
          if_pos (show m.category ∈ (c, ms).1 :: rest.map Prod.fst from
            List.mem_cons_of_mem _ hmem)]
      · have hn : m.category ∉ (c, ms).1 :: rest.map Prod.fst := by
          intro hx
          rcases List.mem_cons.mp hx with hEq | hTail
          · exact hc hEq.symm
          · exact hmem hTail
        rw [if_neg hmem, if_neg hn]
        simp

theorem addToGroups_nodup {gs : List (String × List Market)} (m : Market)
    (h : (gs.map Prod.fst).Nodup) : ((addToGroups gs m).map Prod.fst).Nodup := by
  rw [addToGroups_keys]
  split
  · exact h
  · rename_i hmem
    simp only [List.nodup_append, List.nodup_cons, List.not_mem_nil, not_false_iff,
      List.nodup_nil, and_true, true_and]
    refine ⟨h, ?_⟩
    intro a ha
    simp only [List.mem_singleton]
    intro hEq
    subst hEq
    exact hmem ha

theorem addToGroups_hasCat {gs : List (String × List Market)} {c : String} (m : Market)
    (h : HasCat gs c) : HasCat (addToGroups gs m) c := by
  induction gs with
  | nil => obtain ⟨g, hg, _⟩ := h; simp at hg
  | cons p rest ih =>
    obtain ⟨k, ms⟩ := p
    obtain ⟨g, hg, hgc, hgne⟩ := h
    simp only [addToGroups]
    split
    · rcases List.mem_cons.mp hg with hEq | hTail
      · subst hEq
        exact ⟨(k, ms ++ [m]), List.mem_cons_self _ _, hgc, by simp⟩
      · exact ⟨g, List.mem_cons_of_mem _ hTail, hgc, hgne⟩
    · rcases List.mem_cons.mp hg with hEq | hTail
      · subst hEq
        exact ⟨(k, ms), List.mem_cons_self _ _, hgc, hgne⟩
      · obtain ⟨g', hg', hc', hne'⟩ := ih ⟨g, hTail, hgc, hgne⟩
        exact ⟨g', List.mem_cons_of_mem _ hg', hc', hne'⟩

theorem addToGroups_hasCat_self (gs : List (String × List Market)) (m : Market) :
    HasCat (addToGroups gs m) m.category := by
  induction gs with
  | nil => exact ⟨(m.category, [m]), List.mem_singleton_self _, rfl, by simp⟩
  | cons p rest ih =>
    obtain ⟨k, ms⟩ := p
    simp only [addToGroups]
    split
    · rename_i hk
      exact ⟨(k, ms ++ [m]), List.mem_cons_self _ _, hk, by simp⟩
    · obtain ⟨g', hg', hc', hne'⟩ := ih
      exact ⟨g', List.mem_cons_of_mem _ hg', hc', hne'⟩

theorem foldl_addToGroups_catOk (markets : List Market) :
    ∀ gs, GroupsCatOk gs → GroupsCatOk (markets.foldl addToGroups gs) := by
  induction markets with
  | nil => intro gs h; exact h
  | cons m rest ih =>
    intro gs h
    exact ih _ (addToGroups_catOk m h)

theorem foldl_addToGroups_nodup (markets : List Market) :
    ∀ gs, (gs.map Prod.fst).Nodup → ((markets.foldl addToGroups gs).map Prod.fst).Nodup := by
  induction markets with
  | nil => intro gs h; exact h
  | cons m rest ih =>
    intro gs h
    exact ih _ (addToGroups_nodup m h)

theorem foldl_addToGroups_hasCat_mono (markets : List Market) {c : String} :
    ∀ gs, HasCat gs c → HasCat (markets.foldl addToGroups gs) c := by
  induction markets with
  | nil => intro gs h; exact h
  | cons m rest ih =>
    intro gs h
    exact ih _ (addToGroups_hasCat m h)

theorem foldl_addToGroups_hasCat_of_mem (markets : List Market) {m : Market} :
    ∀ gs, m ∈ markets → HasCat (markets.foldl addToGroups gs) m.category := by
  induction markets with
  | nil => intro gs h; simp at h
  | cons m0 rest ih =>
    intro gs h
    rcases List.mem_cons.mp h with hEq | hTail
    · subst hEq
      exact foldl_addToGroups_hasCat_mono rest _ (addToGroups_hasCat_self gs m)
    · exact ih _ hTail

theorem sliced_join_countP_eq_zero (limit : Int) (c : String) :
    ∀ gs, GroupsCatOk gs → (∀ g ∈ gs, g.1 ≠ c) →
      ((gs.map fun g => pythonSliceUpTo limit g.2).flatten.countP
        (fun m => m.category == c)) = 0 := by
  intro gs
  induction gs with
  | nil => intro _ _; rfl
  | cons g rest ih =>
    intro hok hne
    simp only [List.map_cons, List.flatten_cons, List.countP_append]
    have h1 : (pythonSliceUpTo limit g.2).countP (fun m => m.category == c) = 0 := by
      rw [List.countP_eq_zero]
      intro m hm
      have hmem : m ∈ g.2 := (pythonSliceUpTo_sublist limit g.2).mem hm
      have hcat : m.category = g.1 := hok g (List.mem_cons_self _ _) m hmem
      simp only [beq_iff_eq]
      rw [hcat]
      exact hne g (List.mem_cons_self _ _)
    rw [h1, ih (fun g' hg' => hok g' (List.mem_cons_of_mem _ hg'))
      (fun g' hg' => hne g' (List.mem_cons_of_mem _ hg'))]

theorem sliced_join_countP_le (limit : Int) (h0 : 0 ≤ limit) (c : String) :
    ∀ gs, GroupsCatOk gs → (gs.map Prod.fst).Nodup →
      ((gs.map fun g => pythonSliceUpTo limit g.2).flatten.countP
        (fun m => m.category == c)) ≤ limit.toNat := by
  intro gs
  induction gs with
  | nil => intro _ _; exact Nat.zero_le _
  | cons g rest ih =>
    intro hok hnd
    simp only [List.map_cons, List.flatten_cons, List.countP_append]
    simp only [List.map_cons, List.nodup_cons] at hnd
    by_cases hgc : g.1 = c
    · have hrest : ((rest.map fun g => pythonSliceUpTo limit g.2).flatten.countP
          (fun m => m.category == c)) = 0 := by
        refine sliced_join_countP_eq_zero limit c rest
          (fun g' hg' => hok g' (List.mem_cons_of_mem _ hg')) ?_
        intro g' hg' hc'
        apply hnd.1
        have hmm : g'.1 ∈ rest.map Prod.fst := List.mem_map_of_mem Prod.fst hg'
        rw [hc'] at hmm
        rw [hgc]
        exact hmm
      rw [hrest]
      have hcl := List.countP_le_length (l := pythonSliceUpTo limit g.2)
        (p := fun m => m.category == c)
      have hlen := pythonSliceUpTo_length_le limit h0 g.2
      omega
    · have hhead : (pythonSliceUpTo limit g.2).countP (fun m => m.category == c) = 0 := by
        rw [List.countP_eq_zero]
        intro m hm
        have hmem : m ∈ g.2 := (pythonSliceUpTo_sublist limit g.2).mem hm
        have hcat : m.category = g.1 := hok g (List.mem_cons_self _ _) m hmem
        simp only [beq_iff_eq]
        rw [hcat]
        exact hgc
      rw [hhead]
      have hrest := ih (fun g' hg' => hok g' (List.mem_cons_of_mem _ hg')) hnd.2
      omega

/-- C3 (amended): For every input list of markets and every integer limit
`L ≥ 1`, each category appearing in the output of
`limit_markets_per_category` has at most `L` markets, and every category
with at least one market in the input also appears in the output.  (The
claim's quantification over *every* integer `L` fails: with `L = 0` the
slice `[:0]` empties every group, and with negative `L` the slice keeps
all but the last `|L|` entries — see the counterexample.) -/
theorem limit_markets_per_category_quota (markets : List Market) (limit : Int)
    (c : String) (h : 1 ≤ limit) :
    (((limit_markets_per_category markets limit).countP
        (fun m => m.category == c) : Int) ≤ limit) ∧
    ((∃ m ∈ markets, m.category = c) →
      ∃ m ∈ limit_markets_per_category markets limit, m.category = c) := by
  have h0 : 0 ≤ limit := le_trans (by norm_num) h
  have hok : GroupsCatOk (groupByCategory markets) :=
    foldl_addToGroups_catOk markets [] (by intro g hg; simp at hg)
  have hnd : ((groupByCategory markets).map Prod.fst).Nodup :=
    foldl_addToGroups_nodup markets [] (by simp)
  constructor
  · have := sliced_join_countP_le limit h0 c (groupByCategory markets) hok hnd
    have htn : (limit.toNat : Int) = limit := Int.toNat_of_nonneg h0
    calc ((limit_markets_per_category markets limit).countP
          (fun m => m.category == c) : Int)
        ≤ (limit.toNat : Int) := by exact_mod_cast this
      _ = limit := htn
  · rintro ⟨m, hm, hmc⟩
    have hhc : HasCat (groupByCategory markets) c := by
      have := foldl_addToGroups_hasCat_of_mem markets [] hm
      rwa [hmc] at this
    obtain ⟨g, hg, hgc, hgne⟩ := hhc
    have hne := pythonSliceUpTo_ne_nil limit h g.2 hgne
    obtain ⟨m', hm'⟩ := List.exists_mem_of_ne_nil _ hne
    refine ⟨m', ?_, ?_⟩
    · exact List.mem_flatten.mpr ⟨pythonSliceUpTo limit g.2,
        List.mem_map_of_mem _ hg, hm'⟩
    · have : m' ∈ g.2 := (pythonSliceUpTo_sublist limit g.2).mem hm'
      rw [hok g hg m' this, hgc]

/-- Witness for C3's amended theorem at a concrete input: two markets in
category "A" with limit 1 give exactly one "A" market in the output. -/
theorem limit_markets_per_category_quota_witness :
    (1 : Int) ≤ 1 ∧
    (((limit_markets_per_category
          [⟨"t1", "d1", "A"⟩, ⟨"t2", "d2", "A"⟩] 1).countP
        (fun m => m.category == "A") : Int) ≤ 1) ∧
    ((∃ m ∈ [(⟨"t1", "d1", "A"⟩ : Market), ⟨"t2", "d2", "A"⟩], m.category = "A") →
      ∃ m ∈ limit_markets_per_category [⟨"t1", "d1", "A"⟩, ⟨"t2", "d2", "A"⟩] 1,
        m.category = "A") :=
  ⟨by norm_num,
    (limit_markets_per_category_quota
      [⟨"t1", "d1", "A"⟩, ⟨"t2", "d2", "A"⟩] 1 "A" (by norm_num)).1,
    (limit_markets_per_category_quota
      [⟨"t1", "d1", "A"⟩, ⟨"t2", "d2", "A"⟩] 1 "A" (by norm_num)).2⟩

/-- Counterexample to C3's literal quantification: with limit
`L = 0`, category "A" has one market in the input but is absent from the
output, refuting "every category with at least one input market appears in
the output" for every integer `L`. -/
theorem limit_markets_per_category_zero_counterexample :
    (∃ m ∈ [(⟨"t", "d", "A"⟩ : Market)], m.category = "A") ∧
    limit_markets_per_category [⟨"t", "d", "A"⟩] 0 = [] ∧
    ¬∃ m ∈ limit_markets_per_category [⟨"t", "d", "A"⟩] 0, m.category = "A" := by
  refine ⟨⟨⟨"t", "d", "A"⟩, by simp, rfl⟩, by decide, ?_⟩
  rintro ⟨m, hm, _⟩
  have : limit_markets_per_category [⟨"t", "d", "A"⟩] 0 = [] := by decide
  rw [this] at hm
  simp at hm

/-! ### `validate_prediction_data` and the retry loop of
`generate_prediction_content` (llm_service.py lines 49–196) -/

/-- `AVAILABLE_TAGS` from config.py: the fixed controlled tag vocabulary. -/
def AVAILABLE_TAGS : List String := [
  "Breaking News", "Lok Sabha Elections", "IPL 2025", "Budget 2025", "Startup News",
  "Geopolitics", "Stock Market", "Crypto Prices", "India vs Pakistan", "AI in India",
  "Weather Alerts", "Bollywood", "South Cinema", "New Parliament", "NEET/JEE Updates",
  "State Elections", "Cabinet Decisions", "Parliament Sessions", "Policies and Bills",
  "Supreme Court", "Election Commission", "Opposition Updates", "PM Modi",
  "India-US Relations", "India-China Tensions",
  "RBI Announcements", "Budget", "GST & Taxes", "Inflation", "Unemployment",
  "Banking Sector", "Startup Funding", "Forex & Trade", "Real Estate",
  "Bitcoin", "Ethereum", "Memecoins", "Crypto Regulations India", "RBI on Crypto",
  "Crypto Scams", "Stablecoins", "Airdrops", "NFTs",
  "AI", "ISRO Launches", "Startups", "Government Apps", "Cybersecurity",
  "Meta vs Competition", "Space Missions", "5G Rollout", "ONDC", "Digital India",
  "Middle East Conflict", "Global Elections", "Russia-Ukraine War", "China-Taiwan",
  "UN Updates", "US Politics", "Africa Development", "Climate Agreements",
  "Pakistan Crisis",
  "Tollywood", "Celebrity Gossip", "Music Awards", "Reality TV", "Viral Trends",
  "Social Media Buzz", "Memes", "OTT Shows", "Religion & Festivals",
  "Cricket", "IPL", "Indian Football", "Olympics", "Kabaddi League", "Chess",
  "Badminton", "Wrestling", "Formula 1", "World Cup",
  "NEET", "JEE", "CBSE Board", "UPSC", "UGC-NET", "Study Abroad", "Govt Jobs",
  "Online Courses", "Scholarships",
  "Tata", "Reliance", "Adani", "Startup Acquisitions", "IPO News", "FMCG",
  "Automobiles", "Tech Giants", "E-commerce",
  "Air Pollution", "Water Crisis", "Wildlife", "Climate Change", "Heatwaves",
  "Recycling", "Forest Fires", "Plastic Ban",
  "Politics", "Sports", "Business", "Finance", "Entertainment", "Technology",
  "Science", "Health", "World Affairs", "Climate", "Crypto", "Economy",
  "Education", "Environment"]

/-- The JSON value bound to the answer's `tags` key: either a JSON list
(modelled with string entries — any non-string entry compares unequal to
every vocabulary string, exactly like a string outside the vocabulary) or
some other JSON value, which fails the `isinstance(..., list)` check. -/
inductive TagsValue where
  | list (ts : List String)
  | nonList
deriving DecidableEq, Repr

/-- The JSON value bound to the answer's `endTime` key: a string, or some
other JSON value, on which `.endswith` raises `AttributeError` (caught by
`validate_prediction_data`, which then returns False). -/
inductive EndTimeValue where
  | str (s : String)
  | nonString
deriving DecidableEq, Repr

/-- A parsed generation answer: each of the four required keys may be
missing. -/
structure GenAnswer where
  title : Option String
  endTime : Option EndTimeValue
  description : Option String
  tags : Option TagsValue
deriving DecidableEq, Repr

/-- `validate_prediction_data(data)` (llm_service.py lines 158–196):
required-field presence, `tags` a list of exactly 3 vocabulary entries, and
the endTime shape test `data["endTime"].endswith("Z") and "T" in
data["endTime"]`. -/
def validate_prediction_data (d : GenAnswer) : Bool :=
  match d.title, d.endTime, d.description, d.tags with
  | some _, some et, some _, some tv =>
    match tv with
    | .nonList => false
    | .list ts =>
      if ts.length = 3 then
        if ts.all (fun t => AVAILABLE_TAGS.contains t) then
          match et with
          | .nonString => false
          | .str s => pyEndsWith s "Z" && pyContains s "T"
        else false
      else false
  | _, _, _, _ => false

/-- `"quota" in str(e).lower() or "rate limit" in str(e).lower() or "429"
in str(e)` (llm_service.py line 144). -/
def isRateLimitMessage (msg : String) : Bool :=
  pyContains (pyLower msg) "quota" || pyContains (pyLower msg) "rate limit" ||
    pyContains msg "429"

/-- One attempt of the generation collaborator inside the try-block of
`generate_prediction_content`: either some step (model call, response
access, `json.loads`) raised with a message, or an answer was produced and
parsed. -/
inductive AttemptOutcome where
  | raised (msg : String)
  | parsed (d : GenAnswer)

/-- The retry loop of `generate_prediction_content` (llm_service.py lines
115–156).  `oracle i` is the outcome of attempt `i` (`retry_count` starts
at 0 and increases by exactly 1 per failed attempt, so the attempt index
equals `retry_count` on loop entry).  Returns the result (`None` when all
retries are exhausted) paired with the list of `time.sleep` durations in
seconds, in order: 1 after a validation failure, `60 + 30*attempt` after a
rate-limited exception, 5 after any other exception. -/
def generateGo (oracle : Nat → AttemptOutcome) :
    Nat → Nat → Option GenAnswer × List Nat
  | 0, _ => (none, [])
  | remaining + 1, retryCount =>
    match oracle retryCount with
    | .parsed d =>
      if validate_prediction_data d then (some d, [])
      else
        let r := generateGo oracle remaining (retryCount + 1)
        (r.1, 1 :: r.2)
    | .raised msg =>
      if isRateLimitMessage msg then
        let r := generateGo oracle remaining (retryCount + 1)
        (r.1, (60 + retryCount * 30) :: r.2)
      else
        let r := generateGo oracle remaining (retryCount + 1)
        (r.1, 5 :: r.2)

/-- `generate_prediction_content(model, article_data, max_retries)`: the
loop runs while `retry_count < max_retries` starting at 0. -/
def generate_prediction_content (oracle : Nat → AttemptOutcome)
    (maxRetries : Nat) : Option GenAnswer × List Nat :=
  generateGo oracle maxRetries 0

/-- `PIPELINE_CONFIG["max_retries"]` from config.py. -/
def PIPELINE_CONFIG_max_retries : Nat := 3

/-- Any answer returned by the retry loop passed
`validate_prediction_data`. -/
theorem generateGo_returns_validated (oracle : Nat → AttemptOutcome) :
    ∀ (remaining retryCount : Nat) (d : GenAnswer),
      (generateGo oracle remaining retryCount).1 = some d →
      validate_prediction_data d = true := by
  intro remaining
  induction remaining with
  | zero => intro rc d h; simp [generateGo] at h
  | succ n ih =>
    intro rc d h
    cases hor : oracle rc with
    | parsed d0 =>
      simp only [generateGo, hor] at h
      by_cases hv : validate_prediction_data d0 = true
      · rw [if_pos hv] at h
        obtain rfl : d0 = d := by simpa using h
        exact hv
      · rw [if_neg hv] at h
        exact ih _ d (by simpa using h)
    | raised msg =>
      simp only [generateGo, hor] at h
      split at h
      · exact ih _ d (by simpa using h)
      · exact ih _ d (by simpa using h)

/-- The three shape checks actually implemented by
`validate_prediction_data`, stated separately: all four keys present. -/
def hasRequiredFields (d : GenAnswer) : Bool :=
  d.title.isSome && d.endTime.isSome && d.description.isSome && d.tags.isSome

/-- `tags` is a list of exactly 3 entries, all in the vocabulary. -/
def tagsWellFormed (d : GenAnswer) : Bool :=
  match d.tags with
  | some (.list ts) => ts.length == 3 && ts.all (fun t => AVAILABLE_TAGS.contains t)
  | _ => false

/-- `endTime` is a string that ends with `"Z"` and contains `"T"` — the
whole endTime test the code performs (no timestamp parsing). -/
def endTimeShapeAccepted (d : GenAnswer) : Bool :=
  match d.endTime with
  | some (.str s) => pyEndsWith s "Z" && pyContains s "T"
  | _ => false

theorem validate_eq_shape (d : GenAnswer) :
    validate_prediction_data d =
      (hasRequiredFields d && tagsWellFormed d && endTimeShapeAccepted d) := by
  obtain ⟨t, e, ds, tg⟩ := d
  cases t <;> cases e <;> cases ds <;> cases tg <;> try rfl
  rename_i tstr et dstr tv
  cases tv with
  | nonList => rfl
  | list ts =>
    cases et with
    | str s =>
      change (if ts.length = 3 then
          if ts.all (fun t => AVAILABLE_TAGS.contains t) then
            pyEndsWith s "Z" && pyContains s "T"
          else false
        else false) =
        (((ts.length == 3) && ts.all (fun t => AVAILABLE_TAGS.contains t)) &&
          (pyEndsWith s "Z" && pyContains s "T"))
      by_cases hlen : ts.length = 3
      · rw [if_pos hlen]
        have hbeq : (ts.length == 3) = true := by simpa using hlen
        rw [hbeq, Bool.true_and]
        by_cases hall : (ts.all fun t => AVAILABLE_TAGS.contains t) = true
        · rw [if_pos hall, hall, Bool.true_and]
        · have hf : (ts.all fun t => AVAILABLE_TAGS.contains t) = false := by
            revert hall
            cases ts.all fun t => AVAILABLE_TAGS.contains t <;> simp
          rw [if_neg hall, hf, Bool.false_and]
      · rw [if_neg hlen]
        have hbeq : (ts.length == 3) = false := by simpa using hlen
        rw [hbeq, Bool.false_and, Bool.false_and]
    | nonString =>
      change (if ts.length = 3 then
          if ts.all (fun t => AVAILABLE_TAGS.contains t) then false
          else false
        else false) =
        (((ts.length == 3) && ts.all (fun t => AVAILABLE_TAGS.contains t)) && false)
      rw [Bool.and_false]
      by_cases hlen : ts.length = 3
      · rw [if_pos hlen]
        by_cases hall : (ts.all fun t => AVAILABLE_TAGS.contains t) = true
        · rw [if_pos hall]
        · rw [if_neg hall]
      · rw [if_neg hlen]

/-- C1 (amended): a generation answer missing any of {title, endTime,
description, tags}, or whose tags is not a list of exactly 3 vocabulary
entries, or whose endTime is not a string that ends with "Z" and contains
"T", is rejected by `validate_prediction_data` and is never the answer
returned by `generate_prediction_content`.  (The code's endTime test is
only this shape test; it performs no timestamp parsing — see the
counterexample for an accepted endTime that is not a UTC instant.) -/
theorem generator_rejects_malformed (d : GenAnswer) (oracle : Nat → AttemptOutcome)
    (maxRetries : Nat)
    (h : (hasRequiredFields d && tagsWellFormed d && endTimeShapeAccepted d) = false) :
    validate_prediction_data d = false ∧
    (generate_prediction_content oracle maxRetries).1 ≠ some d := by
  have hv : validate_prediction_data d = false := by
    rw [validate_eq_shape]
    exact h
  refine ⟨hv, ?_⟩
  intro hc
  have hval := generateGo_returns_validated oracle maxRetries 0 d hc
  rw [hv] at hval
  exact Bool.false_ne_true hval

/-- Witness for C1's amended theorem: an answer missing its title is
rejected and never returned. -/
theorem generator_rejects_malformed_witness :
    (hasRequiredFields ⟨none, some (.str "2025-12-31T23:59:59Z"), some "d",
        some (.list ["Bitcoin", "Ethereum", "Cricket"])⟩ &&
      tagsWellFormed ⟨none, some (.str "2025-12-31T23:59:59Z"), some "d",
        some (.list ["Bitcoin", "Ethereum", "Cricket"])⟩ &&
      endTimeShapeAccepted ⟨none, some (.str "2025-12-31T23:59:59Z"), some "d",
        some (.list ["Bitcoin", "Ethereum", "Cricket"])⟩) = false ∧
    (validate_prediction_data ⟨none, some (.str "2025-12-31T23:59:59Z"), some "d",
        some (.list ["Bitcoin", "Ethereum", "Cricket"])⟩ = false ∧
      (generate_prediction_content
          (fun _ => .parsed ⟨none, some (.str "2025-12-31T23:59:59Z"), some "d",
            some (.list ["Bitcoin", "Ethereum", "Cricket"])⟩)
          PIPELINE_CONFIG_max_retries).1 ≠
        some ⟨none, some (.str "2025-12-31T23:59:59Z"), some "d",
          some (.list ["Bitcoin", "Ethereum", "Cricket"])⟩) :=
  ⟨by decide,
    generator_rejects_malformed _ _ PIPELINE_CONFIG_max_retries (by decide)⟩

/-- Modelled from the spec: "`endTime` matches an ISO-8601 instant ending
in the UTC marker; rejects any value failing to parse as a timestamp" — a
string parses as a UTC instant iff it has the shape `YYYY-MM-DDThh:mm:ssZ`
with all-digit, in-range fields. -/
def parsesAsUTCInstant (s : String) : Bool :=
  match s.data with
  | [y1, y2, y3, y4, '-', mo1, mo2, '-', d1, d2, 'T',
     h1, h2, ':', mi1, mi2, ':', s1, s2, 'Z'] =>
    (y1.isDigit && y2.isDigit && y3.isDigit && y4.isDigit &&
     mo1.isDigit && mo2.isDigit && d1.isDigit && d2.isDigit &&
     h1.isDigit && h2.isDigit && mi1.isDigit && mi2.isDigit &&
     s1.isDigit && s2.isDigit) &&
    (let mo := (mo1.toNat - 48) * 10 + (mo2.toNat - 48)
     let da := (d1.toNat - 48) * 10 + (d2.toNat - 48)
     let ho := (h1.toNat - 48) * 10 + (h2.toNat - 48)
     let mi := (mi1.toNat - 48) * 10 + (mi2.toNat - 48)
     let se := (s1.toNat - 48) * 10 + (s2.toNat - 48)
     decide (1 ≤ mo) && decide (mo ≤ 12) && decide (1 ≤ da) && decide (da ≤ 31) &&
       decide (ho ≤ 23) && decide (mi ≤ 59) && decide (se ≤ 59))
  | _ => false

/-- An answer whose endTime is not parseable as a timestamp but contains
"T" and ends with "Z". -/
def badEndTimeAnswer : GenAnswer :=
  ⟨some "Will X happen?", some (.str "aaaaTaaaaZ"), some "Detailed reasoning.",
    some (.list ["Bitcoin", "Ethereum", "Cricket"])⟩

/-- Counterexample to C1 as stated: the answer `badEndTimeAnswer` has an
endTime "aaaaTaaaaZ" that does not parse as a UTC instant, yet
`validate_prediction_data` accepts it and the generator returns it as a
draft. -/
theorem generator_accepts_unparseable_endTime :
    validate_prediction_data badEndTimeAnswer = true ∧
    parsesAsUTCInstant "aaaaTaaaaZ" = false ∧
    (generate_prediction_content (fun _ => .parsed badEndTimeAnswer)
        PIPELINE_CONFIG_max_retries).1 = some badEndTimeAnswer := by
  refine ⟨by decide, by decide, by decide⟩

/-- The wait (in seconds) the code sleeps after attempt `i` when that
attempt does not return: `60 + 30*i` after a rate-limited exception, 5
after any other exception, 1 after a parsed answer failing validation
(0 is a placeholder for a returning attempt, after which nothing sleeps). -/
def attemptWait (oracle : Nat → AttemptOutcome) (i : Nat) : Nat :=
  match oracle i with
  | .raised msg => if isRateLimitMessage msg then 60 + i * 30 else 5
  | .parsed d => if validate_prediction_data d then 0 else 1

theorem generateGo_schedule (oracle : Nat → AttemptOutcome) :
    ∀ (remaining retryCount : Nat),
      (generateGo oracle remaining retryCount).2.length ≤ remaining ∧
      (generateGo oracle remaining retryCount).2 =
        (List.range (generateGo oracle remaining retryCount).2.length).map
          (fun j => attemptWait oracle (retryCount + j)) ∧
      ((generateGo oracle remaining retryCount).1 = none →
        (generateGo oracle remaining retryCount).2.length = remaining) := by
  intro remaining
  induction remaining with
  | zero =>
    intro rc
    exact ⟨Nat.le_refl _, by simp [generateGo], fun _ => by simp [generateGo]⟩
  | succ n ih =>
    intro rc
    obtain ⟨ihLen, ihEq, ihNone⟩ := ih (rc + 1)
    have hstep : ∀ w, w = attemptWait oracle rc →
        (w :: (generateGo oracle n (rc + 1)).2).length ≤ n + 1 ∧
        (w :: (generateGo oracle n (rc + 1)).2) =
          (List.range (w :: (generateGo oracle n (rc + 1)).2).length).map
            (fun j => attemptWait oracle (rc + j)) ∧
        ((generateGo oracle n (rc + 1)).1 = none →
          (w :: (generateGo oracle n (rc + 1)).2).length = n + 1) := by
      intro w hw
      refine ⟨by simpa using ihLen, ?_, ?_⟩
      · simp only [List.length_cons, List.range_succ_eq_map, List.map_cons,
          List.map_map]
        refine congrArg₂ List.cons ?_ ?_
        · rw [hw]; exact rfl
        · conv_lhs => rw [ihEq]
          apply List.map_congr_left
          intro j _
          show attemptWait oracle (rc + 1 + j) = attemptWait oracle (rc + (j + 1))
          congr 1
          omega
      · intro hnone
        simp only [List.length_cons, ihNone hnone]
    cases hor : oracle rc with
    | parsed d =>
      by_cases hv : validate_prediction_data d = true
      · have hg : generateGo oracle (n + 1) rc = (some d, []) := by
          simp [generateGo, hor, hv]
        rw [hg]
        exact ⟨Nat.zero_le _, by simp, fun hc => by simp at hc⟩
      · have hg : generateGo oracle (n + 1) rc =
            ((generateGo oracle n (rc + 1)).1, 1 :: (generateGo oracle n (rc + 1)).2) := by
          simp [generateGo, hor, hv]
        rw [hg]
        exact hstep 1 (by simp [attemptWait, hor, hv])
    | raised msg =>
      by_cases hr : isRateLimitMessage msg = true
      · have hg : generateGo oracle (n + 1) rc =
            ((generateGo oracle n (rc + 1)).1,
              (60 + rc * 30) :: (generateGo oracle n (rc + 1)).2) := by
          simp [generateGo, hor, hr]
        rw [hg]
        exact hstep (60 + rc * 30) (by simp [attemptWait, hor, hr])
      · have hg : generateGo oracle (n + 1) rc =
            ((generateGo oracle n (rc + 1)).1, 5 :: (generateGo oracle n (rc + 1)).2) := by
          simp [generateGo, hor, hr]
        rw [hg]
        exact hstep 5 (by simp [attemptWait, hor, hr])

/-- C6 (amended): in the retry loop, attempt `i`, if rate-limited, sleeps
`60 + 30*i` seconds and consumes a retry slot; any other exception sleeps
a fixed 5 seconds; a parse failure raises and is an "other" exception
(5 seconds); but an answer that parses and fails validation consumes a
retry slot with a 1-second sleep, not 5.  The loop performs at most
`max_retries` attempts and exhausts all of them exactly when it returns
`None`. -/
theorem generate_retry_schedule (oracle : Nat → AttemptOutcome) (maxRetries : Nat) :
    (generate_prediction_content oracle maxRetries).2.length ≤ maxRetries ∧
    (generate_prediction_content oracle maxRetries).2 =
      (List.range (generate_prediction_content oracle maxRetries).2.length).map
        (attemptWait oracle) ∧
    ((generate_prediction_content oracle maxRetries).1 = none →
      (generate_prediction_content oracle maxRetries).2.length = maxRetries) := by
  obtain ⟨h1, h2, h3⟩ := generateGo_schedule oracle maxRetries 0
  refine ⟨h1, ?_, h3⟩
  simp only [generate_prediction_content] at h2 ⊢
  conv_lhs => rw [h2]
  apply List.map_congr_left
  intro j _
  show attemptWait oracle (0 + j) = attemptWait oracle j
  congr 1
  omega

/-- Witness for C6's amended theorem on a concrete run: three rate-limited
attempts sleep 60, 90 and 120 seconds and exhaust the three slots. -/
theorem generate_retry_schedule_witness :
    (generate_prediction_content (fun _ => .raised "429 quota exceeded")
        PIPELINE_CONFIG_max_retries).2 = [60, 90, 120] ∧
    (generate_prediction_content (fun _ => .raised "429 quota exceeded")
        PIPELINE_CONFIG_max_retries).2.length ≤ PIPELINE_CONFIG_max_retries ∧
    (generate_prediction_content (fun _ => .raised "429 quota exceeded")
        PIPELINE_CONFIG_max_retries).2 =
      (List.range (generate_prediction_content (fun _ => .raised "429 quota exceeded")
          PIPELINE_CONFIG_max_retries).2.length).map
        (attemptWait (fun _ => .raised "429 quota exceeded")) ∧
    ((generate_prediction_content (fun _ => .raised "429 quota exceeded")
        PIPELINE_CONFIG_max_retries).1 = none →
      (generate_prediction_content (fun _ => .raised "429 quota exceeded")
          PIPELINE_CONFIG_max_retries).2.length = PIPELINE_CONFIG_max_retries) :=
  ⟨by decide, generate_retry_schedule (fun _ => .raised "429 quota exceeded")
      PIPELINE_CONFIG_max_retries⟩

/-- Counterexample to C6 as stated: an answer that parses but fails
validation sleeps 1 second per attempt, while an "other" exception sleeps
5 seconds — a validation failure is not treated the same as an "other"
failure. -/
theorem generate_validation_failure_wait_counterexample :
    (generate_prediction_content (fun _ => .parsed ⟨none, none, none, none⟩)
        PIPELINE_CONFIG_max_retries).2 = [1, 1, 1] ∧
    (generate_prediction_content (fun _ => .raised "boom")
        PIPELINE_CONFIG_max_retries).2 = [5, 5, 5] ∧
    ([1, 1, 1] : List Nat) ≠ [5, 5, 5] := by
  refine ⟨by decide, by decide, by decide⟩

/-! ### `enrich_article_data` (article_processor.py lines 19–135) -/

/-- A raw article record as consumed by `enrich_article_data`: `link` is
always present (every feed entry carries one), `content` and `summary` are
optional dict keys. -/
structure RawArticle where
  link : String
  content : Option String
  summary : Option String
deriving DecidableEq, Repr

/-- The enriched record: the input dict plus the `processed_content` key
written by `enrich_article_data` (kept optional to express the claim that
it is always set). -/
structure EnrichedArticle where
  article : RawArticle
  processed_content : Option String
deriving DecidableEq, Repr

/-- Helper for Python `text.split()` with no arguments: split on runs of
whitespace, dropping empty pieces. -/
def pyWordsAux : List Char → List Char → List (List Char)
  | [], acc => if acc.isEmpty then [] else [acc.reverse]
  | c :: cs, acc =>
    if c.isWhitespace then
      if acc.isEmpty then pyWordsAux cs [] else acc.reverse :: pyWordsAux cs []
    else pyWordsAux cs (c :: acc)

/-- Python `text.split()`. -/
def pyWords (s : String) : List (List Char) :=
  pyWordsAux s.data []

/-- `clean_article_text(text, max_length)` (article_processor.py lines
79–97): collapse whitespace runs to single spaces, truncate to
`max_length` characters with an explicit `"..."` marker. -/
def clean_article_text (text : String) (maxLength : Nat) : String :=
  let t := String.mk (List.intercalate [' '] (pyWords text))
  if t.length > maxLength then String.mk (t.data.take maxLength) ++ "..." else t

/-- The guard `article_data.get("content") and len(article_data["content"])
> 500` (line 111): Python truthiness makes a missing or empty content
falsy. -/
def hasUsableContent (a : RawArticle) : Bool :=
  match a.content with
  | some c => !(c == "") && decide (c.length > 500)
  | none => false

/-- The fetch-and-extract retry loop of `enrich_article_data` (lines
116–129).  `fetchPage i` is the outcome of `fetch_article_content` on
attempt `i` (`None` models any caught request failure — the function never
raises); `extractText` models `extract_article_text`, total and returning
`""` on error.  Python truthiness: an empty html string or empty extracted
text also falls through to the next attempt. -/
def fetchRounds (fetchPage : Nat → Option String) (extractText : String → String) :
    Nat → Nat → Option String
  | 0, _ => none
  | remaining + 1, attempt =>
    match fetchPage attempt with
    | some html =>
      if html = "" then fetchRounds fetchPage extractText remaining (attempt + 1)
      else
        let t := extractText html
        if t = "" then fetchRounds fetchPage extractText remaining (attempt + 1)
        else some (clean_article_text t 8000)
    | none => fetchRounds fetchPage extractText remaining (attempt + 1)

/-- `enrich_article_data(article_data, max_retries)` (lines 99–135): use
embedded content when long enough, otherwise fetch up to `max_retries`
times, otherwise fall back to the cleaned summary (empty string when the
summary key is absent). -/
def enrich_article_data (a : RawArticle) (fetchPage : Nat → Option String)
    (extractText : String → String) (maxRetries : Nat) : EnrichedArticle :=
  if hasUsableContent a then
    ⟨a, some (clean_article_text (a.content.getD "") 8000)⟩
  else
    match fetchRounds fetchPage extractText maxRetries 0 with
    | some p => ⟨a, some p⟩
    | none => ⟨a, some (clean_article_text (a.summary.getD "") 8000)⟩

/-- C7: For every RawArticle and every behaviour of the fetch/extract
collaborators (including every fetch failing), `enrich_article_data`
returns a record whose `processed_content` is a present (non-null) string,
possibly empty; the function is total, so it never raises. -/
theorem enrich_article_data_total (a : RawArticle) (fetchPage : Nat → Option String)
    (extractText : String → String) (maxRetries : Nat) :
    ∃ s : String,
      (enrich_article_data a fetchPage extractText maxRetries).processed_content =
        some s := by
  unfold enrich_article_data
  split
  · exact ⟨_, rfl⟩
  · cases hf : fetchRounds fetchPage extractText maxRetries 0 with
    | some p => exact ⟨p, by simp [hf]⟩
    | none => exact ⟨clean_article_text (a.summary.getD "") 8000, by simp [hf]⟩

/-! ### `load_checkpoint` (utils.py lines 139–159) -/

/-- `load_checkpoint(filename)`: `pathExists` models `os.path.exists`;
`readParse` models opening and `json.load`-ing the file, with `none` for
any raised exception (caught by the function, which logs and returns
`None`).  The Lean function is total: no failure propagates. -/
def load_checkpoint {α : Type} (pathExists : String → Bool)
    (readParse : String → Option α) (filename : String) : Option α :=
  if pathExists filename then readParse filename else none

/-- C8: `load_checkpoint` returns `None` both when the checkpoint file
does not exist and when it exists but its contents fail to parse as JSON;
being a total function of its collaborators' outcomes, it never raises, so
a failed load never aborts the run. -/
theorem load_checkpoint_absent {α : Type} (pathExists : String → Bool)
    (readParse : String → Option α) (filename : String) :
    (pathExists filename = false →
      load_checkpoint pathExists readParse filename = none) ∧
    (readParse filename = none →
      load_checkpoint pathExists readParse filename = none) := by
  constructor
  · intro h
    simp [load_checkpoint, h]
  · intro h
    unfold load_checkpoint
    split
    · exact h
    · rfl

/-- Witness for C8 at concrete collaborators: a missing file and an
unparseable file both load as `None`. -/
theorem load_checkpoint_absent_witness :
    ((fun _ : String => false) "checkpoints/crypto.json" = false ∧
      load_checkpoint (α := List Market) (fun _ => false) (fun _ => some [])
        "checkpoints/crypto.json" = none) ∧
    ((fun _ : String => (none : Option (List Market))) "checkpoints/crypto.json" = none ∧
      load_checkpoint (α := List Market) (fun _ => true) (fun _ => none)
        "checkpoints/crypto.json" = none) :=
  ⟨⟨rfl, (load_checkpoint_absent (fun _ => false) (fun _ => some [])
      "checkpoints/crypto.json").1 rfl⟩,
    ⟨rfl, (load_checkpoint_absent (fun _ => true) (fun _ => none)
      "checkpoints/crypto.json").2 rfl⟩⟩

/-! ### The per-category checkpoint branch of `run_pipeline`
(pipeline.py lines 139–154) -/

/-- What one category contributes to the run: the markets added to
`all_markets` plus the number of feed fetches and generation calls
performed for the category. -/
structure CategoryEffects where
  markets : List Market
  feedFetches : Nat
  genCalls : Nat
deriving DecidableEq, Repr

/-- The checkpoint branch of `run_pipeline` for one category:
`if checkpoint_data:` is Python truthiness, so both `None` (no file /
unparseable) and the empty list `[]` take the else branch, which runs
`process_category` (its feed fetches, generation calls and resulting
markets are `processCategory`).  A truthy checkpoint contributes its
markets with zero fetches and zero generation calls. -/
def runCategoryStep (checkpoint : Option (List Market))
    (processCategory : CategoryEffects) : CategoryEffects :=
  match checkpoint with
  | some ms => if ms.isEmpty then processCategory else ⟨ms, 0, 0⟩
  | none => processCategory

/-- C2 (amended): for every category with a saved checkpoint of `K ≥ 1`
markets, a subsequent run contributes exactly those `K` markets and
performs zero feed fetches and zero generation calls for that category.
(For `K = 0` the empty checkpoint list is falsy in Python, so the category
is fully reprocessed — see the counterexample.) -/
theorem runCategoryStep_uses_checkpoint (ms : List Market) (p : CategoryEffects)
    (h : ms ≠ []) :
    runCategoryStep (some ms) p = ⟨ms, 0, 0⟩ := by
  have : ms.isEmpty = false := by
    cases ms with
    | nil => exact absurd rfl h
    | cons a l => rfl
  simp [runCategoryStep, this]

/-- Witness for C2's amended theorem: a one-market checkpoint is used
verbatim with zero fetches and zero generation calls, even though
reprocessing would have produced different effects. -/
theorem runCategoryStep_uses_checkpoint_witness :
    ([(⟨"t", "d", "Crypto"⟩ : Market)] ≠ []) ∧
    runCategoryStep (some [⟨"t", "d", "Crypto"⟩]) ⟨[], 5, 7⟩ =
      ⟨[⟨"t", "d", "Crypto"⟩], 0, 0⟩ :=
  ⟨by decide, runCategoryStep_uses_checkpoint [⟨"t", "d", "Crypto"⟩] ⟨[], 5, 7⟩ (by decide)⟩

/-- Counterexample to C2 as stated (which includes `K = 0`): a saved
checkpoint containing 0 markets is falsy, so the category is reprocessed —
here with 3 feed fetches and 9 generation calls and a freshly generated
market — instead of contributing the checkpoint's zero markets with zero
work. -/
theorem runCategoryStep_empty_checkpoint_counterexample :
    runCategoryStep (some []) ⟨[⟨"t", "d", "Crypto"⟩], 3, 9⟩ =
      ⟨[⟨"t", "d", "Crypto"⟩], 3, 9⟩ ∧
    (runCategoryStep (some []) ⟨[⟨"t", "d", "Crypto"⟩], 3, 9⟩).feedFetches ≠ 0 ∧
    (runCategoryStep (some []) ⟨[⟨"t", "d", "Crypto"⟩], 3, 9⟩).markets ≠ [] := by
  refine ⟨by decide, by decide, by decide⟩

/-! ### `create_market_object` (output_formatter.py lines 30–68) -/

/-- The provenance dict written by `process_article_with_llm`; only the
`category` and `link` keys are read by `create_market_object`, each with a
`.get` default. -/
structure ArticleRef where
  category : Option String
  link : Option String
deriving DecidableEq, Repr

/-- Input to `create_market_object`: a validated generation answer (the
four schema fields are always present on this call path) plus the optional
`article` provenance key. -/
structure PredictionInput where
  title : String
  description : String
  endTime : String
  tags : List String
  article : Option ArticleRef
deriving DecidableEq, Repr

/-- `OUTPUT_CONFIG["initial_yes_count"]` from config.py. -/
def OUTPUT_CONFIG_initial_yes_count : Nat := 50000

/-- `OUTPUT_CONFIG["initial_no_count"]` from config.py. -/
def OUTPUT_CONFIG_initial_no_count : Nat := 50000

/-- `OUTPUT_CONFIG["creator_id"]` from config.py. -/
def OUTPUT_CONFIG_creator_id : String := "kalshi-generator"

/-- The market dict built by `create_market_object`.  The two probability
fields hold the exact Python float 0.5, modelled as the rational 1/2 (no
arithmetic is ever performed on them). -/
structure MarketObject where
  id : String
  title : String
  description : String
  category : String
  tags : List String
  status : String
  createdAt : String
  startTime : String
  endTime : String
  resolutionTime : String
  result : Option String
  yesCount : Nat
  noCount : Nat
  totalVolume : Nat
  currentYesProbability : ℚ
  currentNoProbability : ℚ
  creatorId : String
  resolutionSource : String
deriving Repr

/-- `create_market_object(prediction_data)` (output_formatter.py lines
30–68).  `newId` models `generate_market_id()` and `currentTime` the
current UTC timestamp string — both external effects passed in. -/
def create_market_object (newId currentTime : String) (p : PredictionInput) :
    MarketObject :=
  let article := p.article.getD ⟨none, none⟩
  { id := newId
    title := p.title
    description := p.description
    category := article.category.getD "Uncategorized"
    tags := p.tags
    status := "open"
    createdAt := currentTime
    startTime := currentTime
    endTime := p.endTime
    resolutionTime := p.endTime
    result := none
    yesCount := OUTPUT_CONFIG_initial_yes_count
    noCount := OUTPUT_CONFIG_initial_no_count
    totalVolume := OUTPUT_CONFIG_initial_yes_count + OUTPUT_CONFIG_initial_no_count
    currentYesProbability := 1/2
    currentNoProbability := 1/2
    creatorId := OUTPUT_CONFIG_creator_id
    resolutionSource := article.link.getD "" }

/-- C10: for every prediction input lacking the `article` provenance key
(or whose article lacks both `category` and `link`), `create_market_object`
— a total function, so it cannot raise — returns a market with category
"Uncategorized", empty resolutionSource, status "open", both probabilities
0.5, and totalVolume equal to yesCount + noCount. -/
theorem create_market_object_defaults (newId currentTime : String)
    (p : PredictionInput)
    (h : p.article = none ∨ p.article = some ⟨none, none⟩) :
    (create_market_object newId currentTime p).category = "Uncategorized" ∧
    (create_market_object newId currentTime p).resolutionSource = "" ∧
    (create_market_object newId currentTime p).status = "open" ∧
    (create_market_object newId currentTime p).currentYesProbability = 1/2 ∧
    (create_market_object newId currentTime p).currentNoProbability = 1/2 ∧
    (create_market_object newId currentTime p).totalVolume =
      (create_market_object newId currentTime p).yesCount +
        (create_market_object newId currentTime p).noCount := by
  rcases h with h | h <;>
    simp [create_market_object, h, Option.getD]

/-- Witness for C10 at a concrete provenance-free input. -/
theorem create_market_object_defaults_witness :
    ((⟨"Will X happen?", "Details.", "2025-12-31T23:59:59Z",
        ["Bitcoin", "Ethereum", "Cricket"], none⟩ : PredictionInput).article = none ∨
      (⟨"Will X happen?", "Details.", "2025-12-31T23:59:59Z",
        ["Bitcoin", "Ethereum", "Cricket"], none⟩ : PredictionInput).article =
        some ⟨none, none⟩) ∧
    ((create_market_object "market_00000000" "2025-01-01T00:00:00Z"
        ⟨"Will X happen?", "Details.", "2025-12-31T23:59:59Z",
          ["Bitcoin", "Ethereum", "Cricket"], none⟩).category = "Uncategorized" ∧
      (create_market_object "market_00000000" "2025-01-01T00:00:00Z"
        ⟨"Will X happen?", "Details.", "2025-12-31T23:59:59Z",
          ["Bitcoin", "Ethereum", "Cricket"], none⟩).resolutionSource = "" ∧
      (create_market_object "market_00000000" "2025-01-01T00:00:00Z"
        ⟨"Will X happen?", "Details.", "2025-12-31T23:59:59Z",
          ["Bitcoin", "Ethereum", "Cricket"], none⟩).status = "open" ∧
      (create_market_object "market_00000000" "2025-01-01T00:00:00Z"
        ⟨"Will X happen?", "Details.", "2025-12-31T23:59:59Z",
          ["Bitcoin", "Ethereum", "Cricket"], none⟩).currentYesProbability = 1/2 ∧
      (create_market_object "market_00000000" "2025-01-01T00:00:00Z"
        ⟨"Will X happen?", "Details.", "2025-12-31T23:59:59Z",
          ["Bitcoin", "Ethereum", "Cricket"], none⟩).currentNoProbability = 1/2 ∧
      (create_market_object "market_00000000" "2025-01-01T00:00:00Z"
        ⟨"Will X happen?", "Details.", "2025-12-31T23:59:59Z",
          ["Bitcoin", "Ethereum", "Cricket"], none⟩).totalVolume =
        (create_market_object "market_00000000" "2025-01-01T00:00:00Z"
          ⟨"Will X happen?", "Details.", "2025-12-31T23:59:59Z",
            ["Bitcoin", "Ethereum", "Cricket"], none⟩).yesCount +
          (create_market_object "market_00000000" "2025-01-01T00:00:00Z"
            ⟨"Will X happen?", "Details.", "2025-12-31T23:59:59Z",
              ["Bitcoin", "Ethereum", "Cricket"], none⟩).noCount) :=
  ⟨Or.inl rfl,
    create_market_object_defaults "market_00000000" "2025-01-01T00:00:00Z"
      ⟨"Will X happen?", "Details.", "2025-12-31T23:59:59Z",
        ["Bitcoin", "Ethereum", "Cricket"], none⟩ (Or.inl rfl)⟩

end NewsPipeline
